import Mathlib

/-!
# Verification of qt-unix-signals (`src/sigwatch.cpp`)

A shallow embedding of the signal-watcher implementation in
`src/sigwatch.cpp`, followed by theorems settling the specification
claims about it.

The source compiles two variants, selected by `Q_OS_UNIX` / `Q_OS_WIN`
preprocessor guards.  We model the platform choice as an explicit
`Platform` parameter and embed both branches of every guarded function.

Machine integers: the C `int` carried through the socket pair is modelled
as `Int`; where the byte-level representation matters (the `::write` /
`::read` calls on the socket pair) we encode it explicitly as four bytes,
little-endian, two's complement (`intToBytes` / `bytesToInt`).
-/

namespace Sigwatch

/-- Build platform selected by the `Q_OS_UNIX` / `Q_OS_WIN` preprocessor
guards in `sigwatch.cpp`. -/
inductive Platform
  | unix
  | win
  deriving DecidableEq, Repr

/-- `SIGHUP` (defined on Unix builds only; value 1 on Linux). -/
def SIGHUP : Int := 1

/-- `SIGINT` (value 2 on both platforms). -/
def SIGINT : Int := 2

/-- `SIGTERM` (value 15 on both platforms). -/
def SIGTERM : Int := 15

/-- `SIGBREAK` (defined on Windows builds only; value 21 in MSVC). -/
def SIGBREAK : Int := 21

/-- The Qt signals that `UnixSignalWatcher` can emit to its subscribers:
the generic `unixSignal(int)` and the named convenience signals
`interrupted()`, `terminated()`, `hungup()`, `broken()`. -/
inductive QtEvent
  | unixSignal (signal : Int)
  | interrupted
  | terminated
  | hungup
  | broken
  deriving DecidableEq, Repr

/-- Diagnostic messages written with `qDebug()` in `sigwatch.cpp`;
we record which message was emitted and for which signal. -/
inductive LogMsg
  | alreadyWatching (signal : Int)
  | sigactionError (signal : Int)
  | caughtSignal (signal : Int)
  deriving DecidableEq, Repr

/-- `UnixSignalWatcherPrivate::emitQtSignal` (sigwatch.cpp:193-208).
Emits the generic `unixSignal(signal)` first, then each named Qt signal
whose `if` test matches; the `SIGHUP` arm is compiled only under
`Q_OS_UNIX` and the `SIGBREAK` arm only under `Q_OS_WIN`.  The returned
list is the sequence of Qt signals emitted, in emission order. -/
def emitQtSignal (p : Platform) (signal : Int) : List QtEvent :=
  [QtEvent.unixSignal signal]
    ++ (if signal = SIGINT then [QtEvent.interrupted] else [])
    ++ (if signal = SIGTERM then [QtEvent.terminated] else [])
    ++ (match p with
        | Platform.unix => if signal = SIGHUP then [QtEvent.hungup] else []
        | Platform.win => [])
    ++ (match p with
        | Platform.win => if signal = SIGBREAK then [QtEvent.broken] else []
        | Platform.unix => [])

/-- The registry state of a `UnixSignalWatcherPrivate` instance:
the `watchedSignals` member (a `QList<int>`, appended in registration
order), together with a trace of the successful OS-handler installations
(`::sigaction` / `::signal` calls that returned success, one entry per
call) and the `qDebug()` diagnostics emitted so far. -/
structure WatcherState where
  watchedSignals : List Int
  installs : List Int
  log : List LogMsg
  deriving DecidableEq, Repr

/-- Registry state of a freshly constructed instance: `watchedSignals`
is an empty `QList`, no handler installed, nothing logged. -/
def initState : WatcherState :=
  { watchedSignals := [], installs := [], log := [] }

/-- `UnixSignalWatcherPrivate::watchForSignal` (sigwatch.cpp:129-159).
If the signal is already in `watchedSignals`, logs "Already watching"
and returns at once.  Otherwise attempts to install the OS handler
(`::sigaction` on Unix, `::signal` on Windows — structurally identical:
on failure log and return without registering); on success appends the
signal to `watchedSignals`.  The outcome of the OS call is not decided
by this code, so it is passed in as the oracle `osOk`. -/
def watchForSignal (osOk : Bool) (signal : Int) (s : WatcherState) : WatcherState :=
  if s.watchedSignals.contains signal then
    { s with log := s.log ++ [LogMsg.alreadyWatching signal] }
  else if osOk then
    { s with installs := s.installs ++ [signal],
             watchedSignals := s.watchedSignals ++ [signal] }
  else
    { s with log := s.log ++ [LogMsg.sigactionError signal] }

/-- Runs a sequence of `watchForSignal` calls, each with its own OS-call
outcome, left to right. -/
def runWatches : List (Bool × Int) → WatcherState → WatcherState
  | [], s => s
  | (ok, sig) :: rest, s => runWatches rest (watchForSignal ok sig s)

/-- Outcome of the convenience registration operations: either the call
proceeded into `watchForSignal`, or the `Q_ASSERT_X(false, ...)`
platform guard fired (modelled with its debug-build abort semantics). -/
inductive WatchOutcome
  | proceeded (s : WatcherState)
  | assertedUnsupported
  deriving DecidableEq, Repr

/-- `UnixSignalWatcher::watchForInterrupt` (sigwatch.cpp:286-289):
a thin call to `watchForSignal(SIGINT)` on every platform. -/
def watchForInterrupt (osOk : Bool) (s : WatcherState) : WatchOutcome :=
  WatchOutcome.proceeded (watchForSignal osOk SIGINT s)

/-- `UnixSignalWatcher::watchForTerminate` (sigwatch.cpp:291-294):
a thin call to `watchForSignal(SIGTERM)` on every platform. -/
def watchForTerminate (osOk : Bool) (s : WatcherState) : WatchOutcome :=
  WatchOutcome.proceeded (watchForSignal osOk SIGTERM s)

/-- `UnixSignalWatcher::watchForHangup` (sigwatch.cpp:296-303):
under `Q_OS_UNIX` a thin call to `watchForSignal(SIGHUP)`; otherwise
`Q_ASSERT_X(false, ..., "SIGHUP is not supported on this system")`. -/
def watchForHangup (p : Platform) (osOk : Bool) (s : WatcherState) : WatchOutcome :=
  match p with
  | Platform.unix => WatchOutcome.proceeded (watchForSignal osOk SIGHUP s)
  | Platform.win => WatchOutcome.assertedUnsupported

/-- `UnixSignalWatcher::watchForBreak` (sigwatch.cpp:305-312):
under `Q_OS_WIN` a thin call to `watchForSignal(SIGBREAK)`; otherwise
`Q_ASSERT_X(false, ..., "SIGBREAK is not supported on this system")`. -/
def watchForBreak (p : Platform) (osOk : Bool) (s : WatcherState) : WatchOutcome :=
  match p with
  | Platform.win => WatchOutcome.proceeded (watchForSignal osOk SIGBREAK s)
  | Platform.unix => WatchOutcome.assertedUnsupported

/-! ## The Unix socket-pair channel, handler and notifier -/

/-- Little-endian two's-complement encoding of a C `int` as the
`sizeof(int) = 4` bytes that `::write(sockpair[0], &signal, sizeof(signal))`
(sigwatch.cpp:169) puts on the socket. -/
def intToBytes (signal : Int) : List Nat :=
  let u : Nat := (signal % (2 ^ 32)).toNat
  [u % 256, u / 256 % 256, u / 256 / 256 % 256, u / 256 / 256 / 256 % 256]

/-- Little-endian two's-complement decoding of the first four bytes of a
buffer back into a C `int`, as the machine reinterprets the memory of the
local `int signal` (sigwatch.cpp:245) after `::read` filled it. -/
def bytesToInt (bs : List Nat) : Int :=
  let b := bs.take 4
  let u : Nat := (b.getD 0 0) + 256 * (b.getD 1 0) + 256 ^ 2 * (b.getD 2 0)
      + 256 ^ 3 * (b.getD 3 0)
  if u < 2 ^ 31 then (u : Int) else (u : Int) - 2 ^ 32

/-- State of the Unix-build bridge instance: the bytes currently queued
in the socket pair (FIFO, written at `sockpair[0]`, read at
`sockpair[1]`), whether the `QSocketNotifier` is alive and registered
with the event loop, and whether each socket endpoint is open. -/
structure UnixBridge where
  channel : List Nat
  notifierLive : Bool
  writeOpen : Bool
  readOpen : Bool
  deriving DecidableEq, Repr

/-- `UnixSignalWatcherPrivate::UnixSignalWatcherPrivate` under
`Q_OS_UNIX` (sigwatch.cpp:88-102): on `::socketpair` success, both
endpoints open, a `QSocketNotifier` for the read end created, connected
to `_q_onNotify` and enabled; on failure, log and return with nothing
set up.  The `::socketpair` outcome is the oracle `socketpairOk`. -/
def constructBridge (socketpairOk : Bool) : UnixBridge :=
  if socketpairOk then
    { channel := [], notifierLive := true, writeOpen := true, readOpen := true }
  else
    { channel := [], notifierLive := false, writeOpen := false, readOpen := false }

/-- `UnixSignalWatcherPrivate::~UnixSignalWatcherPrivate` under
`Q_OS_UNIX` (sigwatch.cpp:113-121): `delete notifier;` destroys the
`QSocketNotifier`, deregistering the read end from the event loop.
No other statement executes: neither `sockpair[0]` nor `sockpair[1]`
is closed. -/
def destructBridge (st : UnixBridge) : UnixBridge :=
  { st with notifierLive := false }

/-- `UnixSignalWatcherPrivate::signalHandler` under `Q_OS_UNIX`
(sigwatch.cpp:166-171): `::write(sockpair[0], &signal, sizeof(signal))`,
the returned byte count ignored (`Q_UNUSED(nBytes)`).  The write appends
the four bytes of the signal number if the write end is open and fails
silently otherwise. -/
def unixSignalHandler (signal : Int) (st : UnixBridge) : UnixBridge :=
  if st.writeOpen then { st with channel := st.channel ++ intToBytes signal }
  else st

/-- `UnixSignalWatcherPrivate::_q_onNotify` under `Q_OS_UNIX`
(sigwatch.cpp:242-254).  Performs a single
`::read(sockfd, &signal, sizeof(signal))`: up to four bytes are taken
from the channel into the front of the uninitialised local `int signal`
buffer (whose prior indeterminate contents are the parameter `oldBuf`);
the returned count `nBytes` is ignored (`Q_UNUSED(nBytes)`); then
`emitQtSignal(signal)` is called unconditionally on whatever the buffer
now holds.  Returns the new bridge state and the Qt signals emitted. -/
def qOnNotify (st : UnixBridge) (oldBuf : List Nat) : UnixBridge × List QtEvent :=
  let got := st.channel.take 4
  let buf := got ++ oldBuf.drop got.length
  ({ st with channel := st.channel.drop 4 },
   emitQtSignal Platform.unix (bytesToInt buf))

/-- One interaction with the Unix-build bridge: the OS delivering a
signal to the installed handler, the event loop firing the readiness
callback, or the owning watcher being destroyed. -/
inductive BridgeOp
  | raiseSig (signal : Int)
  | notify (oldBuf : List Nat)
  | destruct
  deriving DecidableEq, Repr

/-- Semantics of one `BridgeOp`.  The readiness callback `_q_onNotify`
runs only while the `QSocketNotifier` exists, is enabled, and the read
end is readable (data pending); a destroyed notifier never fires. -/
def stepBridge : BridgeOp → UnixBridge → UnixBridge × List QtEvent
  | BridgeOp.raiseSig sig, st => (unixSignalHandler sig st, [])
  | BridgeOp.notify oldBuf, st =>
      if st.notifierLive ∧ st.channel ≠ [] then qOnNotify st oldBuf else (st, [])
  | BridgeOp.destruct, st => (destructBridge st, [])

/-- Runs a sequence of bridge interactions, collecting every Qt signal
emitted, in order. -/
def runBridge : List BridgeOp → UnixBridge → UnixBridge × List QtEvent
  | [], st => (st, [])
  | op :: ops, st =>
      let r := stepBridge op st
      let r2 := runBridge ops r.1
      (r2.1, r.2 ++ r2.2)

/-! ## The Windows direct-dispatch model -/

/-- State of the Windows-build global back-reference: whether
`UnixSignalWatcherPrivate::instance` is non-null.  All accesses in the
source hold `instanceGuard`, so the pointer check and the dispatch are
atomic with respect to construction and destruction. -/
structure WinState where
  instanceLive : Bool
  deriving DecidableEq, Repr

/-- `UnixSignalWatcherPrivate::~UnixSignalWatcherPrivate` under
`Q_OS_WIN` (sigwatch.cpp:113-121): locks `instanceGuard` and nulls
`instance`. -/
def winDestruct (st : WinState) : WinState :=
  { st with instanceLive := false }

/-- `UnixSignalWatcherPrivate::signalHandler` under `Q_OS_WIN`
(sigwatch.cpp:166-187): locks `instanceGuard`; if `instance` is non-null
calls `instance->emitQtSignal(signal)`, otherwise does nothing (the
signal is dropped).  Returns the Qt signals emitted. -/
def winSignalHandler (st : WinState) (signal : Int) : List QtEvent :=
  if st.instanceLive then emitQtSignal Platform.win signal else []

/-! ## Helper lemmas on the registry -/

lemma runWatches_append (l1 l2 : List (Bool × Int)) (s : WatcherState) :
    runWatches (l1 ++ l2) s = runWatches l2 (runWatches l1 s) := by
  induction l1 generalizing s with
  | nil => rfl
  | cons op rest ih => cases op; simp [runWatches, ih]

lemma watchForSignal_grows (ok : Bool) (sig : Int) (s : WatcherState) :
    ∃ t, (watchForSignal ok sig s).watchedSignals = s.watchedSignals ++ t := by
  unfold watchForSignal
  split
  · exact ⟨[], by simp⟩
  · split
    · exact ⟨[sig], rfl⟩
    · exact ⟨[], by simp⟩

lemma runWatches_grows (ops : List (Bool × Int)) (s : WatcherState) :
    ∃ t, (runWatches ops s).watchedSignals = s.watchedSignals ++ t := by
  induction ops generalizing s with
  | nil => exact ⟨[], by simp [runWatches]⟩
  | cons op rest ih =>
    obtain ⟨ok, sig⟩ := op
    obtain ⟨t1, h1⟩ := watchForSignal_grows ok sig s
    obtain ⟨t2, h2⟩ := ih (watchForSignal ok sig s)
    exact ⟨t1 ++ t2, by simp [runWatches, h2, h1]⟩

lemma watchForSignal_mem_mono (id : Int) (ok : Bool) (sig : Int) (s : WatcherState)
    (h : id ∈ s.watchedSignals) : id ∈ (watchForSignal ok sig s).watchedSignals := by
  obtain ⟨t, ht⟩ := watchForSignal_grows ok sig s
  rw [ht]; exact List.mem_append_left _ h

lemma runWatches_mem_mono (id : Int) (ops : List (Bool × Int)) (s : WatcherState)
    (h : id ∈ s.watchedSignals) : id ∈ (runWatches ops s).watchedSignals := by
  obtain ⟨t, ht⟩ := runWatches_grows ops s
  rw [ht]; exact List.mem_append_left _ h

lemma watchForSignal_mem_self (id : Int) (s : WatcherState) :
    id ∈ (watchForSignal true id s).watchedSignals := by
  unfold watchForSignal
  split
  · simpa using List.elem_iff.mp (by assumption)
  · simp

/-- The per-instance invariant relating the registry to the handler
installation trace: a signal has at most one entry in `watchedSignals`,
and exactly as many successful OS installations as entries. -/
def CountInv (id : Int) (s : WatcherState) : Prop :=
  s.watchedSignals.count id ≤ 1 ∧ s.installs.count id = s.watchedSignals.count id

lemma watchForSignal_countInv (id : Int) (ok : Bool) (sig : Int) (s : WatcherState)
    (h : CountInv id s) : CountInv id (watchForSignal ok sig s) := by
  obtain ⟨h1, h2⟩ := h
  unfold watchForSignal CountInv
  split
  · exact ⟨h1, h2⟩
  · split
    · rename_i hc _
      by_cases hid : id = sig
      · subst hid
        have hnotmem : id ∉ s.watchedSignals := fun hm => hc (List.elem_iff.mpr hm)
        have hz : s.watchedSignals.count id = 0 := List.count_eq_zero.mpr hnotmem
        simp [List.count_append, hz, h2 ▸ hz]
      · simp [List.count_append, List.count_singleton', hid, Ne.symm hid, h1, h2]
    · exact ⟨h1, h2⟩

lemma runWatches_countInv (id : Int) (ops : List (Bool × Int)) (s : WatcherState)
    (h : CountInv id s) : CountInv id (runWatches ops s) := by
  induction ops generalizing s with
  | nil => exact h
  | cons op rest ih =>
    obtain ⟨ok, sig⟩ := op
    exact ih _ (watchForSignal_countInv id ok sig s h)

lemma watchForSignal_nodup (ok : Bool) (sig : Int) (s : WatcherState)
    (h : s.watchedSignals.Nodup) : (watchForSignal ok sig s).watchedSignals.Nodup := by
  unfold watchForSignal
  split
  · exact h
  · split
    · rename_i hc _
      have hnotmem : sig ∉ s.watchedSignals := fun hm => hc (List.elem_iff.mpr hm)
      simp [List.nodup_append, h, hnotmem]
    · exact h

/-! ## Helper lemmas on the byte channel -/

lemma intToBytes_length (s : Int) : (intToBytes s).length = 4 := rfl

lemma bytesToInt_take (bs junk : List Nat) (h : bs.length = 4) :
    bytesToInt (bs ++ junk) = bytesToInt bs := by
  have h4 : (bs ++ junk).take 4 = bs := by rw [← h]; exact List.take_left bs junk
  have h5 : bs.take 4 = bs := List.take_of_length_le (by omega)
  unfold bytesToInt
  rw [h4, h5]

lemma bytesToInt_intToBytes (s : Int) (h0 : 0 ≤ s) (h1 : s < 2 ^ 31) :
    bytesToInt (intToBytes s) = s := by
  unfold bytesToInt intToBytes
  have hmod : s % 2 ^ 32 = s := Int.emod_eq_of_lt h0 (lt_trans h1 (by norm_num))
  rw [hmod]
  have hu : s.toNat < 2 ^ 31 := by omega
  have hrec : s.toNat % 256 + 256 * (s.toNat / 256 % 256)
      + 256 ^ 2 * (s.toNat / 256 / 256 % 256)
      + 256 ^ 3 * (s.toNat / 256 / 256 / 256 % 256) = s.toNat := by omega
  rw [List.take_of_length_le (by simp)]
  simp only [List.getD, List.get?_cons_zero, List.get?_cons_succ, Option.getD_some]
  rw [if_pos (by omega), hrec, Int.toNat_of_nonneg h0]

lemma runBridge_dead_notifier (ops : List BridgeOp) (st : UnixBridge)
    (h : st.notifierLive = false) :
    (runBridge ops st).2 = [] ∧ (runBridge ops st).1.notifierLive = false := by
  induction ops generalizing st with
  | nil => exact ⟨rfl, h⟩
  | cons op rest ih =>
    cases op with
    | raiseSig sig =>
      have hstep : (unixSignalHandler sig st).notifierLive = false := by
        unfold unixSignalHandler; split <;> simp [h]
      have := ih (unixSignalHandler sig st) hstep
      simp [runBridge, stepBridge, this]
    | notify oldBuf =>
      have hgate : ¬ (st.notifierLive ∧ st.channel ≠ []) := by simp [h]
      have := ih st h
      simp [runBridge, stepBridge, hgate, this]
    | destruct =>
      have := ih (destructBridge st) rfl
      simp [runBridge, stepBridge, this]

lemma emitQtSignal_ne_nil (p : Platform) (id : Int) : emitQtSignal p id ≠ [] := by
  unfold emitQtSignal
  simp

/-! ## Claim theorems -/

/-- Claim C1: `watchForSignal(id)` is idempotent — if `id` is already in
`watchedSignals`, a call returns immediately, changing nothing but the
diagnostic log (no OS handler reinstalled, no entry added); and after any
sequence of registration calls containing a call for `id` whose OS
installation succeeds (in particular, registering `id` twice), exactly
one handler installation for `id` has happened and `id` appears exactly
once in `watchedSignals`. -/
theorem watchForSignal_idempotent (id : Int) :
    (∀ (s : WatcherState) (osOk : Bool), id ∈ s.watchedSignals →
      watchForSignal osOk id s =
        { s with log := s.log ++ [LogMsg.alreadyWatching id] }) ∧
    (∀ ops : List (Bool × Int), (true, id) ∈ ops →
      (runWatches ops initState).watchedSignals.count id = 1 ∧
      (runWatches ops initState).installs.count id = 1) := by
  constructor
  · intro s osOk h
    unfold watchForSignal
    rw [if_pos (List.elem_iff.mpr h)]
  · intro ops hmem
    obtain ⟨l1, l2, hops⟩ := List.mem_iff_append.mp hmem
    subst hops
    have hmem2 : id ∈ (runWatches (l1 ++ (true, id) :: l2) initState).watchedSignals := by
      rw [show l1 ++ (true, id) :: l2 = (l1 ++ [(true, id)]) ++ l2 by simp, runWatches_append]
      apply runWatches_mem_mono
      rw [runWatches_append]
      exact watchForSignal_mem_self id _
    obtain ⟨h1, h2⟩ :=
      runWatches_countInv id (l1 ++ (true, id) :: l2) initState
        ⟨by simp [initState], by simp [initState]⟩
    have hpos := List.count_pos_iff.mpr hmem2
    exact ⟨by omega, by omega⟩

/-- Witness for C1 at `id = SIGINT = 2`: a second registration only logs,
and two registrations leave one entry and one installation. -/
theorem watchForSignal_idempotent_witness :
    (watchForSignal true 2 { watchedSignals := [2], installs := [2], log := [] } =
      { watchedSignals := [2], installs := [2], log := [LogMsg.alreadyWatching 2] }) ∧
    (runWatches [(true, 2), (true, 2)] initState).watchedSignals.count 2 = 1 ∧
    (runWatches [(true, 2), (true, 2)] initState).installs.count 2 = 1 :=
  ⟨(watchForSignal_idempotent 2).1 _ true (by decide),
   (watchForSignal_idempotent 2).2 [(true, 2), (true, 2)] (by decide)⟩

/-- Claim C2: `emitQtSignal` always emits the generic `unixSignal(id)`
first, and additionally emits the matching named Qt signal — after the
generic one, within the same call — when `id` is the corresponding
well-known signal (`SIGHUP` on Unix builds, `SIGBREAK` on Windows
builds). -/
theorem emitQtSignal_generic_before_semantic (p : Platform) (id : Int) :
    ∃ rest, emitQtSignal p id = QtEvent.unixSignal id :: rest ∧
      (id = SIGINT → QtEvent.interrupted ∈ rest) ∧
      (id = SIGTERM → QtEvent.terminated ∈ rest) ∧
      (p = Platform.unix → id = SIGHUP → QtEvent.hungup ∈ rest) ∧
      (p = Platform.win → id = SIGBREAK → QtEvent.broken ∈ rest) := by
  refine ⟨(emitQtSignal p id).tail, ?_, ?_, ?_, ?_, ?_⟩
  · cases p <;> simp [emitQtSignal]
  · intro h; subst h; cases p <;> simp [emitQtSignal, SIGINT, SIGTERM, SIGHUP, SIGBREAK]
  · intro h; subst h; cases p <;> simp [emitQtSignal, SIGINT, SIGTERM, SIGHUP, SIGBREAK]
  · intro hp h; subst hp; subst h
    simp [emitQtSignal, SIGINT, SIGTERM, SIGHUP, SIGBREAK]
  · intro hp h; subst hp; subst h
    simp [emitQtSignal, SIGINT, SIGTERM, SIGHUP, SIGBREAK]

/-- Witness for C2 at `p = unix`, `id = SIGINT`: the generic signal comes
first and `interrupted()` follows in the remainder. -/
theorem emitQtSignal_generic_before_semantic_witness :
    ∃ rest, emitQtSignal Platform.unix 2 = QtEvent.unixSignal 2 :: rest ∧
      QtEvent.interrupted ∈ rest := by
  obtain ⟨rest, hhead, hint, -, -, -⟩ :=
    emitQtSignal_generic_before_semantic Platform.unix 2
  exact ⟨rest, hhead, hint rfl⟩

/-- Claim C6: for `id` not already watched, when the OS installation call
fails, `watchForSignal` only logs the error: `watchedSignals` and the
installation trace are exactly as before the call. -/
theorem watchForSignal_failure_atomic (id : Int) (s : WatcherState)
    (h : id ∉ s.watchedSignals) :
    watchForSignal false id s =
      { s with log := s.log ++ [LogMsg.sigactionError id] } := by
  unfold watchForSignal
  rw [if_neg (fun hc => h (List.elem_iff.mp hc)), if_neg (by simp)]

/-- Witness for C6 at `id = SIGINT = 2` on a fresh registry. -/
theorem watchForSignal_failure_atomic_witness :
    watchForSignal false 2 initState =
      { watchedSignals := [], installs := [], log := [LogMsg.sigactionError 2] } :=
  watchForSignal_failure_atomic 2 initState (by decide)

/-- Claim C7: the convenience operations for signals not defined on the
current platform (`watchForHangup` on Windows builds, `watchForBreak` on
Unix builds) hit the `Q_ASSERT_X(false, ...)` guard — modelled with its
debug-build abort semantics — and register nothing, whatever the state
and OS-call outcome. -/
theorem unsupported_convenience_asserts (osOk : Bool) (s : WatcherState) :
    watchForHangup Platform.win osOk s = WatchOutcome.assertedUnsupported ∧
    watchForBreak Platform.unix osOk s = WatchOutcome.assertedUnsupported :=
  ⟨rfl, rfl⟩

/-- Claim C9: starting from a duplicate-free registry, after every
sequence of `watchForSignal` calls the registry is still duplicate-free
and has only grown — the original entries are still there, in order, so
no watched signal ever becomes unwatched during the instance's life. -/
theorem watchedSignals_nodup_monotone (ops : List (Bool × Int)) (s : WatcherState)
    (h : s.watchedSignals.Nodup) :
    (runWatches ops s).watchedSignals.Nodup ∧
    ∃ t, (runWatches ops s).watchedSignals = s.watchedSignals ++ t := by
  refine ⟨?_, runWatches_grows ops s⟩
  induction ops generalizing s with
  | nil => exact h
  | cons op rest ih =>
    obtain ⟨ok, sig⟩ := op
    exact ih _ (watchForSignal_nodup ok sig s h)

/-- Witness for C9: a run with a duplicate and a failing registration,
from the fresh registry. -/
theorem watchedSignals_nodup_monotone_witness :
    (runWatches [(true, 2), (false, 15), (true, 2)] initState).watchedSignals.Nodup ∧
    ∃ t, (runWatches [(true, 2), (false, 15), (true, 2)] initState).watchedSignals =
      initState.watchedSignals ++ t :=
  watchedSignals_nodup_monotone [(true, 2), (false, 15), (true, 2)] initState (by decide)

/-- Claim C10: one `emitQtSignal` call emits the generic signal first and
at most one named semantic signal besides it: exactly one when `id` is a
well-known signal of the build platform, none otherwise (the generic
signal is then the only emission). -/
theorem emitQtSignal_at_most_one_semantic (p : Platform) (id : Int) :
    (emitQtSignal p id).head? = some (QtEvent.unixSignal id) ∧
    (emitQtSignal p id).length =
      (if id = SIGINT ∨ id = SIGTERM ∨ (p = Platform.unix ∧ id = SIGHUP)
          ∨ (p = Platform.win ∧ id = SIGBREAK) then 2 else 1) := by
  constructor
  · cases p <;> simp [emitQtSignal]
  · cases p <;> by_cases h1 : id = SIGINT <;> by_cases h2 : id = SIGTERM <;>
      by_cases h3 : id = SIGHUP <;> by_cases h4 : id = SIGBREAK <;>
      simp_all [emitQtSignal, SIGINT, SIGTERM, SIGHUP, SIGBREAK]

/-- Claim C3 counterexample: with two identifiers (`SIGINT` then
`SIGTERM`, eight bytes) queued in the channel, a single
readiness-callback invocation forwards only the first identifier to
`emitQtSignal`; the second identifier stays queued — so two queued
identifiers do not produce two dispatches from a single invocation. -/
theorem qOnNotify_single_read_cex :
    (qOnNotify
        { channel := intToBytes 2 ++ intToBytes 15,
          notifierLive := true, writeOpen := true, readOpen := true }
        [0, 0, 0, 0]).2 = [QtEvent.unixSignal 2, QtEvent.interrupted] ∧
    (qOnNotify
        { channel := intToBytes 2 ++ intToBytes 15,
          notifierLive := true, writeOpen := true, readOpen := true }
        [0, 0, 0, 0]).1.channel = intToBytes 15 := by
  decide

/-- Claim C3 (amended): each readiness-callback invocation performs a
single fixed-width read — with a whole identifier at the head of the
channel it dispatches exactly that identifier and leaves the rest
queued — so `n` queued identifiers are drained FIFO by `n` successive
callback invocations (the notifier re-fires while data remains), not by
one invocation. -/
theorem qOnNotify_one_identifier_per_callback :
    (∀ (sig : Int) (rest oldBuf : List Nat) (st : UnixBridge),
      0 ≤ sig → sig < 2 ^ 31 → st.channel = intToBytes sig ++ rest →
      qOnNotify st oldBuf =
        ({ st with channel := rest }, emitQtSignal Platform.unix sig)) ∧
    (∀ (sigs : List Int) (bufs : List (List Nat)) (st : UnixBridge),
      (∀ s ∈ sigs, 0 ≤ s ∧ s < 2 ^ 31) →
      bufs.length = sigs.length →
      st.notifierLive = true →
      st.channel = (sigs.map intToBytes).flatten →
      runBridge (bufs.map BridgeOp.notify) st =
        ({ st with channel := [] },
         (sigs.map (emitQtSignal Platform.unix)).flatten)) := by
  have step : ∀ (sig : Int) (rest oldBuf : List Nat) (st : UnixBridge),
      0 ≤ sig → sig < 2 ^ 31 → st.channel = intToBytes sig ++ rest →
      qOnNotify st oldBuf =
        ({ st with channel := rest }, emitQtSignal Platform.unix sig) := by
    intro sig rest oldBuf st h0 h1 hch
    have htake : st.channel.take 4 = intToBytes sig := by
      rw [hch, ← intToBytes_length sig]
      exact List.take_left _ _
    have hdrop : st.channel.drop 4 = rest := by
      rw [hch, ← intToBytes_length sig]
      exact List.drop_left _ _
    have hval : bytesToInt (st.channel.take 4 ++ oldBuf.drop (st.channel.take 4).length)
        = sig := by
      rw [htake, bytesToInt_take _ _ (intToBytes_length sig),
        bytesToInt_intToBytes sig h0 h1]
    unfold qOnNotify
    rw [hdrop]
    simp only [Prod.mk.injEq]
    exact ⟨trivial, by rw [hval]⟩
  refine ⟨step, ?_⟩
  intro sigs
  induction sigs with
  | nil =>
    intro bufs st _ hlen _ hch
    have hb : bufs = [] := List.length_eq_zero.mp (by simpa using hlen)
    subst hb
    have hch2 : st.channel = [] := by simpa using hch
    cases st
    simp_all [runBridge]
  | cons sig sigs ih =>
    intro bufs st hrange hlen hlive hch
    cases bufs with
    | nil => simp at hlen
    | cons buf bufs =>
      have hne : st.channel ≠ [] := by
        rw [hch]
        simp [intToBytes]
      have hstep := step sig ((sigs.map intToBytes).flatten) buf st
        (hrange sig (by simp)).1 (hrange sig (by simp)).2 (by simpa using hch)
      have hrec := ih bufs { st with channel := (sigs.map intToBytes).flatten }
        (fun s hs => hrange s (by simp [hs])) (by simpa using hlen) hlive rfl
      simp [hlive] at hrec
      simp only [List.map_cons, runBridge, stepBridge, hlive, hne, ne_eq,
        not_false_eq_true, and_self, if_true, hstep]
      simp [hrec]

/-- Witness for the amended C3 at two queued identifiers (`SIGINT` then
`SIGTERM`) drained by two callback invocations. -/
theorem qOnNotify_one_identifier_per_callback_witness :
    runBridge [BridgeOp.notify [], BridgeOp.notify []]
        { channel := ([(2 : Int), 15].map intToBytes).flatten,
          notifierLive := true, writeOpen := true, readOpen := true } =
      ({ channel := [], notifierLive := true, writeOpen := true, readOpen := true },
       ([(2 : Int), 15].map (emitQtSignal Platform.unix)).flatten) :=
  qOnNotify_one_identifier_per_callback.2 [2, 15] [[], []]
    { channel := ([(2 : Int), 15].map intToBytes).flatten,
      notifierLive := true, writeOpen := true, readOpen := true }
    (by decide) rfl rfl rfl

/-- Claim C4 counterexample: with a single byte queued (a torn write)
the readiness callback still dispatches — the read's byte count is
ignored — and the identifier dispatched is assembled from the one byte
read and the local buffer's prior indeterminate contents
(2 + 256² = 65538 here). -/
theorem qOnNotify_short_read_dispatch_cex :
    (qOnNotify
        { channel := [2], notifierLive := true, writeOpen := true, readOpen := true }
        [0, 0, 1, 0]).2 = [QtEvent.unixSignal 65538] ∧
    (qOnNotify
        { channel := [2], notifierLive := true, writeOpen := true, readOpen := true }
        [0, 0, 1, 0]).2 ≠ [] := by
  decide

/-- Claim C4 (amended): the readiness callback never inspects the byte
count returned by the read (`Q_UNUSED(nBytes)`): for every channel state
and every prior content of the local buffer — short and empty reads
included — it calls `emitQtSignal` on the value decoded from the bytes
read laid over the buffer's prior contents, and therefore always
dispatches at least the generic Qt signal. -/
theorem qOnNotify_ignores_byte_count (st : UnixBridge) (oldBuf : List Nat) :
    (qOnNotify st oldBuf).2 =
      emitQtSignal Platform.unix
        (bytesToInt (st.channel.take 4 ++ oldBuf.drop (st.channel.take 4).length)) ∧
    (qOnNotify st oldBuf).2 ≠ [] := by
  have h1 : (qOnNotify st oldBuf).2 =
      emitQtSignal Platform.unix
        (bytesToInt (st.channel.take 4 ++ oldBuf.drop (st.channel.take 4).length)) := rfl
  exact ⟨h1, by rw [h1]; exact emitQtSignal_ne_nil _ _⟩

/-- Claim C5 counterexample: construct the bridge (socketpair creation
succeeding) and run the destructor — it is false that both channel
endpoints are then closed: the destructor only destroys the notifier and
never calls `::close` on either socket. -/
theorem destructor_endpoints_stay_open_cex :
    ¬ ((destructBridge (constructBridge true)).writeOpen = false ∧
       (destructBridge (constructBridge true)).readOpen = false) := by
  decide

/-- Claim C5 (amended): destruction of a bridge instance deregisters the
read endpoint from the host event loop (destroying the
`QSocketNotifier`) but closes neither channel endpoint: the write end
and read end of the socket pair remain exactly as they were. -/
theorem destructBridge_deregisters_only (st : UnixBridge) :
    (destructBridge st).notifierLive = false ∧
    (destructBridge st).writeOpen = st.writeOpen ∧
    (destructBridge st).readOpen = st.readOpen ∧
    (destructBridge st).channel = st.channel :=
  ⟨rfl, rfl, rfl, rfl⟩

/-- Claim C8: after a bridge instance is destroyed, no dispatch through
it occurs: under the direct-dispatch (Windows) model the handler takes
the instance guard, finds no live instance and silently drops the
signal; under the split-context (Unix) model any sequence of raised
signals, readiness polls and further destructions after destruction
emits no Qt signal at all. -/
theorem no_dispatch_after_destruction :
    (∀ (st : WinState) (sig : Int), winSignalHandler (winDestruct st) sig = []) ∧
    (∀ (st : UnixBridge) (ops : List BridgeOp),
      (runBridge ops (destructBridge st)).2 = []) := by
  constructor
  · intro st sig; rfl
  · intro st ops
    exact (runBridge_dead_notifier ops (destructBridge st) rfl).1

end Sigwatch
